import Mathlib

/-!
Shallow embedding of the io-dump library (src/lib.rs): the packet dump
encoder (`Inner::write_packet`, `Inner::write_data_line`, `fn millis`) and
the dump parser (`DumpRead::read_packet`), together with proofs of the
specification claims about them.

Lines of dump text are modelled as `List Char` (`Line`); the dump files
involved are ASCII, so Rust's byte-indexed string slices coincide with
character positions. Panics (a failed `assert_eq!`, `unwrap`, or a slice
reaching out of bounds) are modelled as an explicit `panicked` outcome,
kept distinct from a returned `io::Error` (`err`).
-/

namespace IoDump

/-- A line of dump text (without its trailing newline), as the Rust code
sees it: a sequence of characters. -/
abbrev Line := List Char

/-- Direction in which a packet was transferred (`enum Direction`). -/
inductive Direction where
  | Read
  | Write
deriving DecidableEq

/-- Header data of a packet (`struct Head`): direction and elapsed time.
The elapsed time is kept in whole milliseconds (the parser builds it with
`Duration::from_millis`). -/
structure Head where
  direction : Direction
  elapsedMillis : Nat
deriving DecidableEq

/-- Unit of data either read or written (`struct Packet`). Payload bytes
are naturals below 256. -/
structure Packet where
  head : Head
  data : List Nat
deriving DecidableEq

/-- Bytes per data row (`const LINE: usize = 25`). -/
def LINE : Nat := 25

/-- Milliseconds-conversion constants of the source. -/
def NANOS_PER_MILLI : Nat := 1000000

/-- Milliseconds per second (`const MILLIS_PER_SEC: u64 = 1_000`). -/
def MILLIS_PER_SEC : Nat := 1000

/-- Modulus of `u32` arithmetic. -/
def U32_MOD : Nat := 2 ^ 32

/-- Largest `u64` value, at which `millis` saturates. -/
def U64_MAX : Nat := 2 ^ 64 - 1

/-- Convert a duration (whole seconds plus sub-second nanoseconds) to
milliseconds, rounding up and saturating at `u64::MAX` (`fn millis`).
The `u32` sum `subsec_nanos + NANOS_PER_MILLI - 1` is taken modulo
`2^32`, as the machine addition would wrap there. -/
def millis (secs subsecNanos : Nat) : Nat :=
  let m := ((subsecNanos + NANOS_PER_MILLI - 1) % U32_MOD) / NANOS_PER_MILLI
  min (min (secs * MILLIS_PER_SEC) U64_MAX + m) U64_MAX

/-- Uppercase hexadecimal digit, as produced by the `{:02X}` format. -/
def hexDigitChar (d : Nat) : Char :=
  if d < 10 then Char.ofNat (48 + d) else Char.ofNat (55 + d)

/-- The three characters `XX&#32;` (`write!("{:02X} ", byte)`) emitted for
one payload byte of a row. -/
def hexTriple (b : Nat) : Line :=
  [hexDigitChar (b / 16), hexDigitChar (b % 16), ' ']

/-- The blank slot of three spaces emitted in place of a missing byte of
a short row. -/
def padSlot : Line := [' ', ' ', ' ']

/-- Hex-column slot `i` of a row (`Inner::write_data_line`, first loop):
present bytes render as two hex digits and a space, missing slots
(`i >= line.len()`) as three blanks. -/
def hex_slot (line : List Nat) (i : Nat) : Line :=
  match line.get? i with
  | some b => hexTriple b
  | none => padSlot

/-- ASCII representation of one byte (`Inner::write_data_line`, second
loop): the escapes for NUL, tab, newline and carriage return, a space
plus the literal character for printable bytes 32..=126, and the
two-character escape `\?` for everything else. -/
def ascii_repr (b : Nat) : Line :=
  if b = 0 then ['\\', '0']
  else if b = 9 then ['\\', 't']
  else if b = 10 then ['\\', 'n']
  else if b = 13 then ['\\', 'r']
  else if 32 ≤ b ∧ b ≤ 126 then [' ', Char.ofNat b]
  else ['\\', '?']

/-- One body row (`Inner::write_data_line`): `LINE` hex-column slots,
four spaces, then the ASCII column with one entry per byte of the row
and no separator. -/
def write_data_line (line : List Nat) : Line :=
  ((List.range LINE).map (hex_slot line)).flatten
    ++ [' ', ' ', ' ', ' ']
    ++ (line.map ascii_repr).flatten

/-- Decimal digit character. -/
def digitChar (d : Nat) : Char := Char.ofNat (48 + d)

/-- Decimal digits of a natural number accumulated most significant
first (the `{}` integer format used for the byte count). The first
argument is fuel bounding the number of divisions by ten; `n` itself is
always enough. -/
def natDecGo : Nat → Nat → List Char → List Char
  | 0, _, acc => acc
  | _, 0, acc => acc
  | fuel + 1, n + 1, acc => natDecGo fuel ((n + 1) / 10) (digitChar ((n + 1) % 10) :: acc)

/-- Decimal rendering of a natural number. -/
def natDec (n : Nat) : List Char :=
  if n = 0 then ['0'] else natDecGo n n []

/-- Elapsed-seconds text with exactly three decimals: models
`write!("{:.*}s", 3, millis(..) as f64 / 1000.0)` (without the trailing
`s`) as the exact decimal expansion of `em / 1000`; for every duration
a dump can hold this agrees with the float formatting. -/
def fmt3 (em : Nat) : Line :=
  natDec (em / 1000)
    ++ '.' :: [digitChar (em % 1000 / 100), digitChar (em / 10 % 10), digitChar (em % 10)]

/-- Direction marker written in the header: `<-` for `Write`, `->` for
`Read`. -/
def dirMarker : Direction → Line
  | .Write => ['<', '-']
  | .Read => ['-', '>']

/-- Header line of one record (`Inner::write_packet`, header part):
marker, two spaces, elapsed seconds with trailing `s`, two spaces, byte
count, one space, the word `bytes`. -/
def headerLine (dir : Direction) (em : Nat) (n : Nat) : Line :=
  dirMarker dir ++ ' ' :: ' ' ::
    (fmt3 em ++ 's' :: ' ' :: ' ' :: (natDec n ++ ' ' :: ['b', 'y', 't', 'e', 's']))

/-- Body rows of a payload (`Inner::write_packet`, the
`while pos < data.len()` loop): successive rows of `LINE` bytes, the
last row possibly shorter. -/
def write_rows_go : Nat → List Nat → List Line
  | 0, _ => []
  | fuel + 1, data =>
    if data = [] then []
    else write_data_line (data.take LINE) :: write_rows_go fuel (data.drop LINE)

/-- Body rows of a payload, with the fuel of `write_rows_go` set to the
payload length: the loop consumes at least one byte per row, so this is
always enough. -/
def write_rows (data : List Nat) : List Line :=
  write_rows_go data.length data

/-- One encoded packet record (`Inner::write_packet`): header line, body
rows, one blank terminator line. `em` is the elapsed duration already
converted by `millis`. -/
def write_packet (dir : Direction) (em : Nat) (data : List Nat) : List Line :=
  headerLine dir em data.length :: (write_rows data ++ [[]])

/-- Dump produced by a whole capture session: the concatenation of the
records written for each successive transfer, each with the direction,
elapsed milliseconds and payload of that transfer. -/
def encodeDump (pkts : List (Direction × Nat × List Nat)) : List Line :=
  (pkts.map (fun p => write_packet p.1 p.2.1 p.2.2)).flatten

/-- Splits a line at every space character, keeping empty pieces
(`head.split(|v| v == ' ')`). -/
def split_sp : List Char → List (List Char)
  | [] => [[]]
  | c :: cs =>
    if c = ' ' then [] :: split_sp cs
    else
      match split_sp cs with
      | t :: ts => (c :: t) :: ts
      | [] => [[c]]

/-- Tokens of a header line: split at spaces and drop the empty pieces
(`.split(|v| v == ' ').filter(|v| !v.is_empty())`). -/
def tokensL (cs : List Char) : List (List Char) :=
  (split_sp cs).filter (fun t => decide (t ≠ []))

/-- Value of one hexadecimal digit, as accepted by
`u8::from_str_radix(_, 16)`. -/
def hexVal (c : Char) : Option Nat :=
  if '0' ≤ c ∧ c ≤ '9' then some (c.toNat - 48)
  else if 'a' ≤ c ∧ c ≤ 'f' then some (c.toNat - 87)
  else if 'A' ≤ c ∧ c ≤ 'F' then some (c.toNat - 55)
  else none

/-- Parse of the two-character slice `&line[pos..pos+2]` by
`u8::from_str_radix(c, 16)`: an optional leading plus sign, then hex
digits; two hex digits can never overflow `u8`. -/
def parseHexPair (c1 c2 : Char) : Option Nat :=
  if c1 = '+' then hexVal c2
  else
    match hexVal c1, hexVal c2 with
    | some hi, some lo => some (16 * hi + lo)
    | _, _ => none

/-- Outcome of the inner hex-scanning loop of `read_packet` on one body
line: the decoded bytes, the `could not parse byte` error, or an
out-of-bounds slice panic. -/
inductive ScanResult where
  | ok (bytes : List Nat)
  | err
  | oob
deriving DecidableEq

/-- Inner loop of `read_packet` over one body line, viewed from the scan
position `pos` as the suffix `line[pos..]`: examine the two-character
slice at the front (a slice reaching past the end of the line is the
out-of-bounds panic `oob`), stop at a two-space group, otherwise parse a
hex pair (failure is the `could not parse byte` error) and advance the
position by three, i.e. continue on the suffix minus three characters. -/
def scanHex : List Char → ScanResult
  | c1 :: c2 :: rest =>
    if c1 = ' ' ∧ c2 = ' ' then .ok []
    else
      match parseHexPair c1 c2 with
      | none => .err
      | some b =>
        match rest with
        | [] => .oob
        | _ :: rest' =>
          match scanHex rest' with
          | .ok bs => .ok (b :: bs)
          | r => r
  | _ => .oob

/-- Outcome of one `read_packet` call: `ok` is `Ok(Option<Packet>)`
together with the input lines not yet consumed, `err` a returned
`io::Error`, `panicked` an aborted call (failed assertion, `unwrap` of a
failed parse, slice panic). -/
inductive ReadOutcome where
  | ok (p : Option Packet) (rest : List Line)
  | err (msg : String)
  | panicked (msg : String)
deriving DecidableEq

/-- Body loop of `read_packet`: an empty line — or end of input, turned
into an empty line by `None => "".into()` — terminates the record and
yields the packet; otherwise the line's hex column is scanned and its
bytes are appended to the packet data. -/
def readBody (dir : Direction) (em : Nat) : List Nat → List Line → ReadOutcome
  | data, [] => .ok (some ⟨⟨dir, em⟩, data⟩) []
  | data, l :: rest =>
    if l = [] then .ok (some ⟨⟨dir, em⟩, data⟩) rest
    else
      match scanHex l with
      | .oob => .panicked ("byte index out of bounds")
      | .err => .err ("could not parse byte")
      | .ok bs => readBody dir em (data ++ bs) rest

/-- Decimal digit test. -/
def isDigitCh (c : Char) : Bool := ('0' ≤ c) && (c ≤ '9')

/-- Value of a digit string, most significant digit first. -/
def digitsVal (cs : List Char) : Nat :=
  cs.foldl (fun a c => a * 10 + (c.toNat - 48)) 0

/-- Parse of an unsigned decimal number: models the finite-number part
of the `f64::from_str` grammar (`digits`, `digits.digits`, `digits.`,
`.digits`); exponents, `inf` and `nan` never occur in a dump's elapsed
field and are not modelled. The value is kept exact as a numerator and
a decimal scale: the number denoted is `num / 10 ^ scale`. -/
def parseUnsigned (cs : List Char) : Option (Nat × Nat) :=
  match cs.dropWhile isDigitCh with
  | [] => if cs = [] then none else some (digitsVal cs, 0)
  | '.' :: frac =>
    if cs.takeWhile isDigitCh = [] ∧ frac = [] then none
    else if frac.all isDigitCh then
      some (digitsVal (cs.takeWhile isDigitCh) * 10 ^ frac.length + digitsVal frac,
        frac.length)
    else none
  | _ => none

/-- Model of `str::parse::<f64>` on the elapsed field: an optional sign,
then an unsigned decimal number; the Boolean records a negative sign. -/
def parse_f64 (cs : List Char) : Option (Bool × Nat × Nat) :=
  match cs with
  | '+' :: rest => (parseUnsigned rest).map (fun p => (false, p))
  | '-' :: rest => (parseUnsigned rest).map (fun p => (true, p))
  | _ => (parseUnsigned cs).map (fun p => (false, p))

/-- The conversion `(elapsed * 1000.0) as u64` applied to a parsed value
`(neg, num, scale)` denoting `± num / 10 ^ scale`: multiply by 1000 and
truncate toward zero, with the cast clamping to `0 ..= u64::MAX`. -/
def f64ToU64 (v : Bool × Nat × Nat) : Nat :=
  if v.1 then 0 else min (v.2.1 * 1000 / 10 ^ v.2.2) U64_MAX

/-- Direction decoded from the header's first token (`match &head[0][..]`):
`<-` is `Write`, `->` is `Read`, anything else `None` (which `read_packet`
turns into the returned `invalid direction format` error). -/
def dirOfToken (t : Line) : Option Direction :=
  if t = ['<', '-'] then some Direction.Write
  else if t = ['-', '>'] then some Direction.Read
  else none

/-- Header-and-body part of one `read_packet` call, reached once a
non-skipped line with token list `toks` has been found: a token count
other than four is the `assert_eq!(4, head.len())` panic; a direction
marker other than `<-`/`->` is a returned error; an elapsed field whose
text (minus its last character) does not parse is the
`.parse().unwrap()` panic; otherwise the body lines are read. -/
def read_header (toks : List Line) (rest : List Line) : ReadOutcome :=
  match toks with
  | [u0, u1, _, _] =>
    match dirOfToken u0 with
    | none => .err ("invalid direction format")
    | some dir =>
      match parse_f64 u1.dropLast with
      | none => .panicked ("called unwrap on an Err value")
      | some v => readBody dir (f64ToU64 v) [] rest
  | _ => .panicked ("assertion failed: 4 == head.len()")

/-- One `DumpRead::read_packet` call on the remaining lines of the dump:
lines with no tokens and lines whose first token is exactly `//` are
skipped (`continue`), end of input yields `Ok(None)`, and any other
line is parsed as a header by `read_header`. -/
def read_packet : List Line → ReadOutcome
  | [] => .ok none []
  | l :: rest =>
    if tokensL l = [] then read_packet rest
    else if (tokensL l).head? = some ['/', '/'] then read_packet rest
    else read_header (tokensL l) rest

/-- Outcome of draining the reader: repeated `read_packet` calls, as the
`Iterator` implementation performs on its `Ok` path. -/
inductive IterOutcome where
  | ok (ps : List Packet)
  | err (msg : String)
  | panicked (msg : String)
  | diverged
deriving DecidableEq

/-- Drain the reader with explicit fuel. `read_packet` consumes at least
one input line whenever it yields a packet, so `lines.length + 1` fuel
always suffices. -/
def readAllFuel : Nat → List Line → IterOutcome
  | 0, _ => .diverged
  | fuel + 1, lines =>
    match read_packet lines with
    | .ok none _ => .ok []
    | .ok (some p) rest =>
      match readAllFuel fuel rest with
      | .ok ps => .ok (p :: ps)
      | r => r
    | .err m => .err m
    | .panicked m => .panicked m

/-- All packets of a dump, in order. -/
def readAll (lines : List Line) : IterOutcome :=
  readAllFuel (lines.length + 1) lines

/-- Result plumbing of `impl Read for Dump` (`fn read`): the wrapped
stream's result is either an error or the bytes it placed in the
buffer; `sink` is the outcome of the `Inner::write_packet` call, which
is only consulted when a capture session `inner` is present. -/
def dumpRead (inner : Option Unit) (upstream : Except String (List Nat))
    (sink : Except String Unit) : Except String Nat :=
  match upstream with
  | .error e => .error e
  | .ok dst =>
    match inner with
    | some _ =>
      match sink with
      | .error e => .error e
      | .ok _ => .ok dst.length
    | none => .ok dst.length

/-- Result plumbing of `impl Write for Dump` (`fn write`): the wrapped
stream's result is either an error or the count `n` of bytes accepted;
`sink` is the outcome of the `Inner::write_packet` call on the first
`n` bytes, only consulted when a capture session is present. -/
def dumpWrite (inner : Option Unit) (upstream : Except String Nat)
    (sink : Except String Unit) : Except String Nat :=
  match upstream with
  | .error e => .error e
  | .ok n =>
    match inner with
    | some _ =>
      match sink with
      | .error e => .error e
      | .ok _ => .ok n
    | none => .ok n

/-! Helper lemmas: tokenization of header lines. -/

theorem split_sp_no_space (xs : List Char) (h : ∀ c ∈ xs, c ≠ ' ') :
    split_sp xs = [xs] := by
  induction xs with
  | nil => rfl
  | cons c cs ih =>
    have hc : c ≠ ' ' := h c (by simp)
    have ih' := ih (fun d hd => h d (by simp [hd]))
    simp only [split_sp, if_neg hc, ih']

theorem split_sp_append (xs ys : List Char) (h : ∀ c ∈ xs, c ≠ ' ') :
    split_sp (xs ++ ' ' :: ys) = xs :: split_sp ys := by
  induction xs with
  | nil => simp [split_sp]
  | cons c cs ih =>
    have hc : c ≠ ' ' := h c (by simp)
    have ih' := ih (fun d hd => h d (by simp [hd]))
    simp only [List.cons_append, split_sp, if_neg hc, List.append_eq, ih']

theorem tokensL_space_cons (ys : List Char) : tokensL (' ' :: ys) = tokensL ys := by
  simp [tokensL, split_sp]

theorem tokensL_tok (xs ys : List Char) (hne : xs ≠ []) (h : ∀ c ∈ xs, c ≠ ' ') :
    tokensL (xs ++ ' ' :: ys) = xs :: tokensL ys := by
  simp [tokensL, split_sp_append xs ys h, hne]

theorem tokensL_no_space (xs : List Char) (hne : xs ≠ []) (h : ∀ c ∈ xs, c ≠ ' ') :
    tokensL xs = [xs] := by
  simp [tokensL, split_sp_no_space xs h, hne]

/-! Helper lemmas: decimal digit characters. -/

theorem digitChar_digit (d : Nat) (h : d < 10) : isDigitCh (digitChar d) = true := by
  interval_cases d <;> decide

theorem isDigitCh_ne_space (c : Char) (h : isDigitCh c = true) : c ≠ ' ' := by
  intro he
  subst he
  exact absurd h (by decide)

theorem natDecGo_digits (fuel : Nat) : ∀ (n : Nat) (acc : List Char),
    (∀ c ∈ acc, isDigitCh c = true) →
    ∀ c ∈ natDecGo fuel n acc, isDigitCh c = true := by
  induction fuel with
  | zero => intro n acc hacc; simpa [natDecGo] using hacc
  | succ fuel ih =>
    intro n acc hacc
    cases n with
    | zero => simpa [natDecGo] using hacc
    | succ n =>
      simp only [natDecGo]
      apply ih
      intro c hc
      rcases List.mem_cons.mp hc with hc | hc
      · subst hc
        exact digitChar_digit _ (Nat.mod_lt _ (by omega))
      · exact hacc c hc

theorem natDec_digits (n : Nat) : ∀ c ∈ natDec n, isDigitCh c = true := by
  unfold natDec
  split
  · intro c hc
    simp only [List.mem_singleton] at hc
    subst hc
    decide
  · exact natDecGo_digits n n [] (by simp)

theorem natDecGo_ne_nil (fuel : Nat) : ∀ (n : Nat) (acc : List Char), acc ≠ [] →
    natDecGo fuel n acc ≠ [] := by
  induction fuel with
  | zero => intro n acc hacc; simpa [natDecGo] using hacc
  | succ fuel ih =>
    intro n acc hacc
    cases n with
    | zero => simpa [natDecGo] using hacc
    | succ n =>
      simp only [natDecGo]
      exact ih _ _ (by simp)

theorem natDec_ne_nil (n : Nat) : natDec n ≠ [] := by
  unfold natDec
  split
  · simp
  · cases n with
    | zero => simp_all
    | succ n =>
      simp only [natDecGo]
      exact natDecGo_ne_nil n _ _ (by simp)

theorem natDec_no_space (n : Nat) : ∀ c ∈ natDec n, c ≠ ' ' :=
  fun c hc => isDigitCh_ne_space c (natDec_digits n c hc)

/-! Helper lemmas: the elapsed-seconds text and header tokenization. -/

theorem fmt3_no_space (em : Nat) : ∀ c ∈ fmt3 em, c ≠ ' ' := by
  intro c hc
  unfold fmt3 at hc
  rcases List.mem_append.mp hc with hc | hc
  · exact natDec_no_space _ c hc
  · rcases List.mem_cons.mp hc with hc | hc
    · subst hc; decide
    · have hd : isDigitCh c = true := by
        rcases List.mem_cons.mp hc with hc | hc
        · subst hc; exact digitChar_digit _ (by omega)
        · rcases List.mem_cons.mp hc with hc | hc
          · subst hc; exact digitChar_digit _ (Nat.mod_lt _ (by omega))
          · rcases List.mem_cons.mp hc with hc | hc
            · subst hc; exact digitChar_digit _ (Nat.mod_lt _ (by omega))
            · simp at hc
      exact isDigitCh_ne_space c hd

theorem fmt3_ne_nil (em : Nat) : fmt3 em ≠ [] := by
  unfold fmt3
  simp

theorem etok_no_space (em : Nat) : ∀ c ∈ fmt3 em ++ ['s'], c ≠ ' ' := by
  intro c hc
  rcases List.mem_append.mp hc with hc | hc
  · exact fmt3_no_space em c hc
  · simp only [List.mem_singleton] at hc
    subst hc; decide

theorem headerLine_assoc (dir : Direction) (em n : Nat) :
    headerLine dir em n =
      dirMarker dir ++ ' ' :: ' ' ::
        ((fmt3 em ++ ['s']) ++ ' ' :: ' ' ::
          (natDec n ++ ' ' :: ['b', 'y', 't', 'e', 's'])) := by
  simp [headerLine]

theorem tokensL_headerLine (dir : Direction) (em n : Nat) :
    tokensL (headerLine dir em n) =
      [dirMarker dir, fmt3 em ++ ['s'], natDec n, ['b', 'y', 't', 'e', 's']] := by
  rw [headerLine_assoc]
  have hmark : ∀ c ∈ dirMarker dir, c ≠ ' ' := by cases dir <;> decide
  have hmarkne : dirMarker dir ≠ [] := by cases dir <;> decide
  rw [tokensL_tok _ _ hmarkne hmark, tokensL_space_cons,
    tokensL_tok _ _ (by simp) (etok_no_space em), tokensL_space_cons,
    tokensL_tok _ _ (natDec_ne_nil n) (natDec_no_space n),
    tokensL_no_space _ (by simp) (by decide)]

/-! Helper lemmas: parsing the encoder's elapsed field succeeds. -/

theorem takeWhile_digits_dot (xs tl : List Char) (hx : ∀ c ∈ xs, isDigitCh c = true) :
    (xs ++ '.' :: tl).takeWhile isDigitCh = xs ∧
      (xs ++ '.' :: tl).dropWhile isDigitCh = '.' :: tl := by
  induction xs with
  | nil =>
    constructor <;>
      simp [List.takeWhile_cons, List.dropWhile_cons,
        show isDigitCh '.' = false from rfl]
  | cons c cs ih =>
    have hc : isDigitCh c = true := hx c (by simp)
    have ih' := ih (fun d hd => hx d (by simp [hd]))
    constructor
    · simp [List.takeWhile_cons, hc, ih'.1]
    · simp [List.dropWhile_cons, hc, ih'.2]

theorem parseUnsigned_fmt3 (em : Nat) :
    ∃ v : Nat × Nat, parseUnsigned (fmt3 em) = some v := by
  have hdig := natDec_digits (em / 1000)
  have hfd : ∀ c ∈ [digitChar (em % 1000 / 100), digitChar (em / 10 % 10),
      digitChar (em % 10)], isDigitCh c = true := by
    intro c hc
    rcases List.mem_cons.mp hc with hc | hc
    · subst hc; exact digitChar_digit _ (by omega)
    rcases List.mem_cons.mp hc with hc | hc
    · subst hc; exact digitChar_digit _ (Nat.mod_lt _ (by omega))
    rcases List.mem_cons.mp hc with hc | hc
    · subst hc; exact digitChar_digit _ (Nat.mod_lt _ (by omega))
    · simp at hc
  obtain ⟨ht, hd⟩ := takeWhile_digits_dot (natDec (em / 1000))
    [digitChar (em % 1000 / 100), digitChar (em / 10 % 10), digitChar (em % 10)] hdig
  refine ⟨(digitsVal (natDec (em / 1000)) * 10 ^ 3 +
    digitsVal [digitChar (em % 1000 / 100), digitChar (em / 10 % 10),
      digitChar (em % 10)], 3), ?_⟩
  unfold parseUnsigned fmt3
  rw [hd, ht]
  simp [List.all_eq_true, hfd, natDec_ne_nil]

/-! Helper lemmas: the hex column and its scan. -/

theorem hexVal_hexDigitChar (d : Nat) (h : d < 16) : hexVal (hexDigitChar d) = some d := by
  interval_cases d <;> decide

theorem hexDigitChar_ne_space (d : Nat) (h : d < 16) : hexDigitChar d ≠ ' ' := by
  interval_cases d <;> decide

theorem hexDigitChar_ne_plus (d : Nat) (h : d < 16) : hexDigitChar d ≠ '+' := by
  interval_cases d <;> decide

theorem parseHexPair_hexTriple (b : Nat) (hb : b < 256) :
    parseHexPair (hexDigitChar (b / 16)) (hexDigitChar (b % 16)) = some b := by
  have hdiv : b / 16 < 16 := by omega
  have hmod : b % 16 < 16 := Nat.mod_lt _ (by omega)
  unfold parseHexPair
  rw [if_neg (hexDigitChar_ne_plus _ hdiv), hexVal_hexDigitChar _ hdiv,
    hexVal_hexDigitChar _ hmod]
  have : 16 * (b / 16) + b % 16 = b := by omega
  simp [this]

theorem hex_slot_cons_succ (b : Nat) (l : List Nat) (i : Nat) :
    hex_slot (b :: l) (i + 1) = hex_slot l i := by
  simp [hex_slot]

theorem slots_eq (l : List Nat) : ∀ (k : Nat), l.length ≤ k →
    (List.range k).map (hex_slot l) =
      l.map hexTriple ++ List.replicate (k - l.length) padSlot := by
  induction l with
  | nil =>
    intro k _
    have : ∀ i ∈ List.range k, hex_slot [] i = padSlot := by
      intro i _
      simp [hex_slot]
    calc (List.range k).map (hex_slot [])
        = (List.range k).map (fun _ => padSlot) := List.map_congr_left this
      _ = List.replicate k padSlot := by
          rw [List.map_const']
          simp
      _ = [].map hexTriple ++ List.replicate (k - List.length []) padSlot := by simp
  | cons b l ih =>
    intro k hk
    cases k with
    | zero => simp at hk
    | succ k =>
      have hk' : l.length ≤ k := by simpa using hk
      rw [List.range_succ_eq_map, List.map_cons, List.map_map]
      have hcomp : (List.range k).map (hex_slot (b :: l) ∘ Nat.succ) =
          (List.range k).map (hex_slot l) := by
        apply List.map_congr_left
        intro i _
        exact hex_slot_cons_succ b l i
      rw [hcomp, ih k hk']
      simp [hex_slot]

theorem write_data_line_eq (l : List Nat) (h : l.length ≤ LINE) :
    write_data_line l = (l.map hexTriple).flatten ++
      ((List.replicate (LINE - l.length) padSlot).flatten ++
        ([' ', ' ', ' ', ' '] ++ (l.map ascii_repr).flatten)) := by
  unfold write_data_line
  rw [slots_eq l LINE h]
  simp [List.flatten_append, List.append_assoc]

theorem padded_tail_take2 (k : Nat) (tl : List Char) :
    ((List.replicate k padSlot).flatten ++ ([' ', ' ', ' ', ' '] ++ tl)).take 2 =
      [' ', ' '] := by
  cases k with
  | zero => simp
  | succ k => simp [List.replicate_succ, padSlot]

theorem scanHex_encoded (l : List Nat) (hb : ∀ b ∈ l, b < 256) :
    ∀ rest : List Char, rest.take 2 = [' ', ' '] →
      scanHex ((l.map hexTriple).flatten ++ rest) = .ok l := by
  induction l with
  | nil =>
    intro rest hr
    match rest, hr with
    | r1 :: r2 :: rest', hr =>
      have h1 : r1 = ' ' := by simpa using congrArg (fun t => t.head?) hr
      have h2 : r2 = ' ' := by
        simp only [List.take, List.cons.injEq] at hr
        exact hr.2.1
      subst h1; subst h2
      simp [scanHex]
  | cons b l ih =>
    intro rest hr
    have hb256 : b < 256 := hb b (by simp)
    have ih' := ih (fun d hd => hb d (by simp [hd])) rest hr
    simp only [List.map_cons, List.flatten_cons, hexTriple, List.cons_append,
      List.append_assoc]
    rw [scanHex]
    rw [if_neg (by
      intro hcontra
      exact hexDigitChar_ne_space _ (by omega) hcontra.1)]
    rw [parseHexPair_hexTriple b hb256]
    simp only [List.nil_append]
    rw [ih']

/-! Helper lemmas: body rows and the body-reading loop. -/

theorem write_rows_go_congr : ∀ (fuel fuel' : Nat) (data : List Nat),
    data.length ≤ fuel → data.length ≤ fuel' →
    write_rows_go fuel data = write_rows_go fuel' data := by
  intro fuel
  induction fuel with
  | zero =>
    intro fuel' data h _
    have hnil : data = [] := by cases data <;> simp_all
    subst hnil
    cases fuel' <;> simp [write_rows_go]
  | succ fuel ih =>
    intro fuel' data h h'
    by_cases hd : data = []
    · subst hd
      cases fuel' <;> simp [write_rows_go]
    · cases fuel' with
      | zero =>
        have : data = [] := by cases data <;> simp_all
        exact absurd this hd
      | succ fuel' =>
        simp only [write_rows_go, if_neg hd]
        congr 1
        apply ih
        · have := List.length_pos.mpr hd
          simp only [List.length_drop, LINE]
          omega
        · have := List.length_pos.mpr hd
          simp only [List.length_drop, LINE]
          omega

theorem write_rows_nil : write_rows [] = [] := rfl

theorem write_rows_eq (data : List Nat) (h : data ≠ []) :
    write_rows data =
      write_data_line (data.take LINE) :: write_rows (data.drop LINE) := by
  have hpos := List.length_pos.mpr h
  unfold write_rows
  cases hlen : data.length with
  | zero => omega
  | succ m =>
    simp only [write_rows_go, if_neg h]
    congr 1
    apply write_rows_go_congr
    · simp only [List.length_drop, LINE]
      omega
    · exact Nat.le_refl _

theorem write_data_line_ne_nil (l : List Nat) : write_data_line l ≠ [] := by
  simp [write_data_line]

theorem scanHex_write_data_line (l : List Nat) (hlen : l.length ≤ LINE)
    (hb : ∀ b ∈ l, b < 256) : scanHex (write_data_line l) = .ok l := by
  rw [write_data_line_eq l hlen]
  exact scanHex_encoded l hb _ (padded_tail_take2 _ _)

theorem readBody_rows : ∀ (fuel : Nat) (data : List Nat), data.length ≤ fuel →
    (∀ b ∈ data, b < 256) →
    ∀ (acc : List Nat) (tail : List Line) (dir : Direction) (em : Nat),
      readBody dir em acc (write_rows data ++ tail) = readBody dir em (acc ++ data) tail := by
  intro fuel
  induction fuel with
  | zero =>
    intro data h _ acc tail dir em
    have hnil : data = [] := by cases data <;> simp_all
    subst hnil
    simp [write_rows, write_rows_go]
  | succ fuel ih =>
    intro data h hb acc tail dir em
    by_cases hd : data = []
    · subst hd
      simp [write_rows, write_rows_go]
    · have hpos := List.length_pos.mpr hd
      rw [write_rows_eq data hd]
      simp only [List.cons_append]
      rw [readBody]
      rw [if_neg (write_data_line_ne_nil _)]
      rw [scanHex_write_data_line _ (List.length_take_le _ _)
        (fun b hbmem => hb b (List.take_subset _ _ hbmem))]
      show readBody dir em (acc ++ data.take LINE) (write_rows (data.drop LINE) ++ tail) =
        readBody dir em (acc ++ data) tail
      rw [ih (data.drop LINE)
        (by simp only [List.length_drop, LINE] at *; omega)
        (fun b hbmem => hb b (List.drop_subset _ _ hbmem))]
      rw [List.append_assoc, List.take_append_drop]

/-! Helper lemmas: reading one encoded record. -/

theorem fmt3_head_digit (em : Nat) : ∃ c cs, fmt3 em = c :: cs ∧ isDigitCh c = true := by
  cases hnd : natDec (em / 1000) with
  | nil => exact absurd hnd (natDec_ne_nil _)
  | cons c cs =>
    refine ⟨c, cs ++ '.' :: [digitChar (em % 1000 / 100), digitChar (em / 10 % 10),
      digitChar (em % 10)], ?_, ?_⟩
    · unfold fmt3
      rw [hnd]
      simp
    · exact natDec_digits _ c (by rw [hnd]; simp)

theorem parse_f64_fmt3 (em : Nat) : ∃ v, parse_f64 (fmt3 em) = some (false, v) := by
  obtain ⟨v, hv⟩ := parseUnsigned_fmt3 em
  obtain ⟨c, cs, hf, hc⟩ := fmt3_head_digit em
  have h1 : c ≠ '+' := by intro he; subst he; exact absurd hc (by decide)
  have h2 : c ≠ '-' := by intro he; subst he; exact absurd hc (by decide)
  refine ⟨v, ?_⟩
  rw [hf] at hv ⊢
  unfold parse_f64
  split
  · simp_all
  · simp_all
  · rw [hv]
    rfl

theorem read_packet_headerLine (dir : Direction) (em n : Nat) (body : List Line) :
    ∃ v, read_packet (headerLine dir em n :: body) =
      readBody dir (f64ToU64 (false, v)) [] body := by
  obtain ⟨v, hv⟩ := parse_f64_fmt3 em
  refine ⟨v, ?_⟩
  rw [read_packet, tokensL_headerLine]
  rw [if_neg (by simp)]
  rw [if_neg (by
    intro hcontra
    simp only [List.head?_cons, Option.some.injEq] at hcontra
    cases dir <;> simp [dirMarker] at hcontra)]
  rw [read_header]
  have hdir : dirOfToken (dirMarker dir) = some dir := by
    cases dir <;> rfl
  rw [hdir]
  show (match parse_f64 (fmt3 em ++ ['s']).dropLast with
    | none => ReadOutcome.panicked ("called unwrap on an Err value")
    | some w => readBody dir (f64ToU64 w) [] body) =
    readBody dir (f64ToU64 (false, v)) [] body
  rw [List.dropLast_concat, hv]

theorem read_packet_write_packet (dir : Direction) (em : Nat) (data : List Nat)
    (rest : List Line) (hb : ∀ b ∈ data, b < 256) :
    ∃ em', read_packet (write_packet dir em data ++ rest) =
      .ok (some ⟨⟨dir, em'⟩, data⟩) rest := by
  obtain ⟨v, hv⟩ := read_packet_headerLine dir em data.length
    (write_rows data ++ ([] :: rest))
  refine ⟨f64ToU64 (false, v), ?_⟩
  unfold write_packet
  simp only [List.cons_append, List.append_assoc, List.singleton_append,
    List.nil_append]
  rw [hv]
  rw [readBody_rows data.length data (Nat.le_refl _) hb [] ([] :: rest)]
  simp [readBody]

/-! Helper lemmas: draining the whole dump. -/

theorem length_le_encodeDump (pkts : List (Direction × Nat × List Nat)) :
    pkts.length ≤ (encodeDump pkts).length := by
  induction pkts with
  | nil => simp [encodeDump]
  | cons p ps ih =>
    have henc : encodeDump (p :: ps) = write_packet p.1 p.2.1 p.2.2 ++ encodeDump ps := by
      simp [encodeDump]
    have hwp : 1 ≤ (write_packet p.1 p.2.1 p.2.2).length := by
      simp [write_packet]
    rw [henc, List.length_append, List.length_cons]
    omega

theorem readAllFuel_encodeDump : ∀ (pkts : List (Direction × Nat × List Nat)) (fuel : Nat),
    pkts.length < fuel →
    (∀ p ∈ pkts, ∀ b ∈ p.2.2, b < 256) →
    ∃ ps : List Packet,
      readAllFuel fuel (encodeDump pkts) = .ok ps ∧
      ps.map (fun q => q.head.direction) = pkts.map (fun p => p.1) ∧
      ps.map (fun q => q.data) = pkts.map (fun p => p.2.2) := by
  intro pkts
  induction pkts with
  | nil =>
    intro fuel hf _
    cases fuel with
    | zero => omega
    | succ fuel =>
      refine ⟨[], ?_, by simp, by simp⟩
      simp [encodeDump, readAllFuel, read_packet]
  | cons p ps ih =>
    intro fuel hf hb
    cases fuel with
    | zero => omega
    | succ fuel =>
      have henc : encodeDump (p :: ps) = write_packet p.1 p.2.1 p.2.2 ++ encodeDump ps := by
        simp [encodeDump]
      obtain ⟨em', hrp⟩ := read_packet_write_packet p.1 p.2.1 p.2.2 (encodeDump ps)
        (hb p (by simp))
      obtain ⟨ps', hps', hdirs, hdatas⟩ := ih fuel (by simpa using hf)
        (fun q hq => hb q (by simp [hq]))
      refine ⟨⟨⟨p.1, em'⟩, p.2.2⟩ :: ps', ?_, by simp [hdirs], by simp [hdatas]⟩
      rw [henc, readAllFuel, hrp]
      show (match readAllFuel fuel (encodeDump ps) with
        | IterOutcome.ok qs => IterOutcome.ok (Packet.mk ⟨p.1, em'⟩ p.2.2 :: qs)
        | r => r) = IterOutcome.ok (Packet.mk ⟨p.1, em'⟩ p.2.2 :: ps')
      rw [hps']

/-! Claim theorems. -/

/-- C1: for every finite sequence of (direction, payload-bytes) pairs
captured through the Decorator's read/write calls (each with whatever
elapsed-millisecond stamp `millis` produced), parsing the resulting dump
text with the Reader yields exactly the same number of packets, with
identical directions and identical payload bytes, in the original
order. -/
theorem C1_round_trip (pkts : List (Direction × Nat × List Nat))
    (hb : ∀ p ∈ pkts, ∀ b ∈ p.2.2, b < 256) :
    ∃ ps : List Packet,
      readAll (encodeDump pkts) = .ok ps ∧
      ps.length = pkts.length ∧
      ps.map (fun q => q.head.direction) = pkts.map (fun p => p.1) ∧
      ps.map (fun q => q.data) = pkts.map (fun p => p.2.2) := by
  obtain ⟨ps, h1, h2, h3⟩ := readAllFuel_encodeDump pkts ((encodeDump pkts).length + 1)
    (by have := length_le_encodeDump pkts; omega) hb
  refine ⟨ps, h1, ?_, h2, h3⟩
  have hlen := congrArg List.length h2
  simpa using hlen

/-- Witness for C1 at a concrete two-transfer capture. -/
theorem C1_round_trip_witness :
    ∃ ps : List Packet,
      readAll (encodeDump [(Direction.Write, 1, [80, 82, 73]), (Direction.Read, 2, [])]) =
        .ok ps ∧
      ps.length = [(Direction.Write, 1, ([80, 82, 73] : List Nat)),
        (Direction.Read, 2, [])].length ∧
      ps.map (fun q => q.head.direction) =
        [(Direction.Write, 1, ([80, 82, 73] : List Nat)),
          (Direction.Read, 2, [])].map (fun p => p.1) ∧
      ps.map (fun q => q.data) =
        [(Direction.Write, 1, ([80, 82, 73] : List Nat)),
          (Direction.Read, 2, [])].map (fun p => p.2.2) :=
  C1_round_trip _ (by decide)

/-- C2: for every duration (seconds plus sub-second nanoseconds below
one billion), `millis` converts to whole milliseconds rounding the
sub-second remainder up to the next millisecond — the result adds to
`secs * 1000` the least `r` with `nanos ≤ r * 10^6`, so an exact zero
remainder contributes zero — and saturates the total at `u64::MAX`
instead of overflowing. -/
theorem C2_millis_ceiling_saturating (secs nanos : Nat) (hn : nanos < 1000000000) :
    ∃ r : Nat,
      millis secs nanos = min (secs * 1000 + r) U64_MAX ∧
      nanos ≤ r * 1000000 ∧
      (∀ s : Nat, nanos ≤ s * 1000000 → r ≤ s) ∧
      (nanos = 0 → r = 0) := by
  refine ⟨(nanos + 999999) / 1000000, ?_, by omega, fun s hs => by omega, fun h0 => by omega⟩
  simp only [millis, NANOS_PER_MILLI, MILLIS_PER_SEC, U32_MOD, U64_MAX]
  have h32 : (2 : Nat) ^ 32 = 4294967296 := by norm_num
  have h64 : (2 : Nat) ^ 64 - 1 = 18446744073709551615 := by norm_num
  rw [h32, h64]
  omega

/-- Witness for C2 at one second plus one nanosecond. -/
theorem C2_millis_witness :
    ∃ r : Nat,
      millis 1 1 = min (1 * 1000 + r) U64_MAX ∧
      1 ≤ r * 1000000 ∧
      (∀ s : Nat, 1 ≤ s * 1000000 → r ≤ s) ∧
      ((1 : Nat) = 0 → r = 0) :=
  C2_millis_ceiling_saturating 1 1 (by norm_num)

/-- C4: a read or write call on the Decorator returns the same byte
count as the wrapped stream and surfaces the wrapped stream's errors
unchanged; and when the underlying transfer succeeds but writing the
log record to the sink fails, that sink error is returned from the call
itself. In no-capture mode the sink is never consulted. -/
theorem C4_result_plumbing :
    (∀ (inner : Option Unit) (e : String) (sink : Except String Unit),
      dumpRead inner (.error e) sink = .error e) ∧
    (∀ (inner : Option Unit) (dst : List Nat),
      dumpRead inner (.ok dst) (.ok ()) = .ok dst.length) ∧
    (∀ (dst : List Nat) (e : String),
      dumpRead (some ()) (.ok dst) (.error e) = .error e) ∧
    (∀ (dst : List Nat) (sink : Except String Unit),
      dumpRead none (.ok dst) sink = .ok dst.length) ∧
    (∀ (inner : Option Unit) (e : String) (sink : Except String Unit),
      dumpWrite inner (.error e) sink = .error e) ∧
    (∀ (inner : Option Unit) (n : Nat),
      dumpWrite inner (.ok n) (.ok ()) = .ok n) ∧
    (∀ (n : Nat) (e : String),
      dumpWrite (some ()) (.ok n) (.error e) = .error e) ∧
    (∀ (n : Nat) (sink : Except String Unit),
      dumpWrite none (.ok n) sink = .ok n) := by
  refine ⟨fun inner e sink => rfl, fun inner dst => ?_, fun dst e => rfl,
    fun dst sink => rfl, fun inner e sink => rfl, fun inner n => ?_,
    fun n e => rfl, fun n sink => rfl⟩
  · cases inner <;> rfl
  · cases inner <;> rfl

/-- C10: on every body line the encoder produces (a row of at most 25
bytes), the Reader's fixed-stride hex scan stops at a hex pair or a
two-space group before running past the end of the line, decoding
exactly the row's bytes and never reaching the out-of-bounds panic; on
an arbitrary line this in-bounds guarantee fails — the one-character
line `4` drives the scan out of bounds. -/
theorem C10_scan_bounds :
    (∀ l : List Nat, (∀ b ∈ l, b < 256) → l.length ≤ LINE →
      scanHex (write_data_line l) = .ok l) ∧
    scanHex ['4'] = .oob :=
  ⟨fun l hb hlen => scanHex_write_data_line l hlen hb, by decide⟩

/-- Witness for C10 at a concrete three-byte row. -/
theorem C10_scan_bounds_witness :
    scanHex (write_data_line [0, 255, 65]) = .ok [0, 255, 65] :=
  C10_scan_bounds.1 _ (by decide) (by decide)

theorem hexTriple_ne_padSlot (b : Nat) (hb : b < 256) : hexTriple b ≠ padSlot := by
  intro h
  simp only [hexTriple, padSlot, List.cons.injEq] at h
  exact hexDigitChar_ne_space (b / 16) (by omega) h.1

theorem ascii_repr_length (b : Nat) : (ascii_repr b).length = 2 := by
  unfold ascii_repr
  split_ifs <;> rfl

theorem take_write_rows : ∀ (k : Nat) (data : List Nat),
    (write_rows data).take k = write_rows (data.take (LINE * k)) := by
  intro k
  induction k with
  | zero =>
    intro data
    simp [write_rows, write_rows_go]
  | succ k ih =>
    intro data
    by_cases hd : data = []
    · subst hd
      simp [write_rows, write_rows_go]
    · rw [write_rows_eq data hd]
      have htne : data.take (LINE * (k + 1)) ≠ [] := by
        have hpos := List.length_pos.mpr hd
        intro h
        have hlen := congrArg List.length h
        simp only [List.length_take, List.length_nil, LINE] at hlen
        omega
      rw [write_rows_eq _ htne, List.take_succ_cons]
      congr 1
      · rw [List.take_take]
        have hmin : min LINE (LINE * (k + 1)) = LINE := by
          simp only [LINE]
          omega
        rw [hmin]
      · rw [ih, List.drop_take]
        have harith : LINE * (k + 1) - LINE = LINE * k := by
          simp only [LINE]
          omega
        rw [harith]

/-- C3 (amended): whenever the Reader encounters a non-skipped header
line, a direction marker other than `<-`/`->` is rejected with an
explicit format-error result; but a space-split token count different
from four aborts the parse with the `assert_eq!` panic, and an
unparseable elapsed value aborts it with the `unwrap` panic — neither of
those two is reported as an error result. -/
theorem C3_amended_header_errors (l : Line) (rest : List Line)
    (hne : tokensL l ≠ [])
    (hnc : (tokensL l).head? ≠ some ['/', '/']) :
    ((tokensL l).length ≠ 4 →
      read_packet (l :: rest) = .panicked ("assertion failed: 4 == head.len()")) ∧
    (∀ u0 u1 u2 u3, tokensL l = [u0, u1, u2, u3] → dirOfToken u0 = none →
      read_packet (l :: rest) = .err ("invalid direction format")) ∧
    (∀ u0 u1 u2 u3 dir, tokensL l = [u0, u1, u2, u3] → dirOfToken u0 = some dir →
      parse_f64 u1.dropLast = none →
      read_packet (l :: rest) = .panicked ("called unwrap on an Err value")) := by
  have hrp : read_packet (l :: rest) = read_header (tokensL l) rest := by
    rw [read_packet, if_neg hne, if_neg hnc]
  refine ⟨?_, ?_, ?_⟩
  · intro hlen
    rw [hrp]
    rcases htoks : tokensL l with _ | ⟨a, _ | ⟨b, _ | ⟨c, _ | ⟨d, ts⟩⟩⟩⟩
    · exact absurd htoks hne
    · rfl
    · rfl
    · rfl
    · cases ts with
      | nil => rw [htoks] at hlen; simp at hlen
      | cons e ts' => rfl
  · intro u0 u1 u2 u3 htoks hdir
    rw [hrp, htoks]
    show (match dirOfToken u0 with
      | none => ReadOutcome.err ("invalid direction format")
      | some dir =>
        match parse_f64 u1.dropLast with
        | none => ReadOutcome.panicked ("called unwrap on an Err value")
        | some v => readBody dir (f64ToU64 v) [] rest) =
      ReadOutcome.err ("invalid direction format")
    rw [hdir]
  · intro u0 u1 u2 u3 dir htoks hdir hparse
    rw [hrp, htoks]
    show (match dirOfToken u0 with
      | none => ReadOutcome.err ("invalid direction format")
      | some dir =>
        match parse_f64 u1.dropLast with
        | none => ReadOutcome.panicked ("called unwrap on an Err value")
        | some v => readBody dir (f64ToU64 v) [] rest) =
      ReadOutcome.panicked ("called unwrap on an Err value")
    rw [hdir]
    show (match parse_f64 u1.dropLast with
      | none => ReadOutcome.panicked ("called unwrap on an Err value")
      | some v => readBody dir (f64ToU64 v) [] rest) =
      ReadOutcome.panicked ("called unwrap on an Err value")
    rw [hparse]

/-- Counterexample to C3 as stated: on the three-token header
`<- 0.001s 3` the parse attempt aborts with a panic; it is not reported
to the caller as an error result. -/
theorem C3_counterexample :
    read_packet [("<- 0.001s 3").toList] =
      .panicked ("assertion failed: 4 == head.len()") ∧
    ∀ msg : String, read_packet [("<- 0.001s 3").toList] ≠ .err msg := by
  have h1 : read_packet [("<- 0.001s 3").toList] =
      .panicked ("assertion failed: 4 == head.len()") := by decide
  refine ⟨h1, ?_⟩
  intro msg hmsg
  rw [h1] at hmsg
  exact ReadOutcome.noConfusion hmsg

/-- Witness for the amended C3 on three concrete malformed headers. -/
theorem C3_amended_header_errors_witness :
    read_packet [("<- 0.001s 3").toList] =
      .panicked ("assertion failed: 4 == head.len()") ∧
    read_packet [("xx 0.001s 3 bytes").toList] = .err ("invalid direction format") ∧
    read_packet [("<- 0.00xs 3 bytes").toList] =
      .panicked ("called unwrap on an Err value") := by
  refine ⟨?_, ?_, ?_⟩
  · exact (C3_amended_header_errors _ [] (by decide) (by decide)).1 (by decide)
  · exact (C3_amended_header_errors _ [] (by decide) (by decide)).2.1
      (("xx").toList) (("0.001s").toList) (("3").toList) (("bytes").toList)
      (by decide) (by decide)
  · exact (C3_amended_header_errors _ [] (by decide) (by decide)).2.2
      (("<-").toList) (("0.00xs").toList) (("3").toList) (("bytes").toList)
      Direction.Write (by decide) (by decide) (by decide)

/-- C5: a zero-byte operation still emits a complete record — a header
line whose tokens state `0` and `bytes`, zero data rows, and the single
blank terminator line — and the Reader decodes that record back into a
packet whose data has length zero. -/
theorem C5_zero_byte_record (dir : Direction) (em : Nat) :
    write_packet dir em [] = [headerLine dir em 0, []] ∧
    write_rows [] = [] ∧
    tokensL (headerLine dir em 0) =
      [dirMarker dir, fmt3 em ++ ['s'], ['0'], ['b', 'y', 't', 'e', 's']] ∧
    ∃ em', read_packet (write_packet dir em []) = .ok (some ⟨⟨dir, em'⟩, []⟩) [] := by
  refine ⟨by simp [write_packet, write_rows, write_rows_go], rfl, ?_, ?_⟩
  · rw [tokensL_headerLine]
    rfl
  · obtain ⟨em', h⟩ := read_packet_write_packet dir em [] [] (by simp)
    exact ⟨em', by simpa using h⟩

/-- C6: the encoder splits payloads into rows of 25 bytes — a 25-byte
payload yields exactly one data row whose hex column has no blank
padding slot, and a 26-byte payload yields two rows, the second row
carrying one byte and blank three-character padding slots in the
remaining 24 hex positions. -/
theorem C6_row_wrapping :
    (∀ data : List Nat, data.length = 25 → (∀ b ∈ data, b < 256) →
      write_rows data = [write_data_line data] ∧
      ∀ i, i < LINE → hex_slot data i ≠ padSlot) ∧
    (∀ data : List Nat, data.length = 26 →
      write_rows data = [write_data_line (data.take LINE),
        write_data_line (data.drop LINE)] ∧
      (data.drop LINE).length = 1 ∧
      ∀ i, 1 ≤ i → i < LINE → hex_slot (data.drop LINE) i = padSlot) := by
  constructor
  · intro data hlen hb
    have hne : data ≠ [] := by intro h; rw [h] at hlen; simp at hlen
    constructor
    · rw [write_rows_eq data hne]
      have h1 : data.take LINE = data := List.take_of_length_le (by simp [LINE, hlen])
      have h2 : data.drop LINE = [] := List.drop_eq_nil_of_le (by simp [LINE, hlen])
      rw [h1, h2, write_rows_nil]
    · intro i hi
      have hi25 : i < 25 := by simpa [LINE] using hi
      have hlt : i < data.length := by omega
      have hget := List.get?_eq_get hlt
      unfold hex_slot
      rw [hget]
      exact hexTriple_ne_padSlot _ (hb _ (data.get_mem _ _))
  · intro data hlen
    have hne : data ≠ [] := by intro h; rw [h] at hlen; simp at hlen
    have hd1 : (data.drop LINE).length = 1 := by
      simp [List.length_drop, LINE, hlen]
    have hdne : data.drop LINE ≠ [] := by
      intro h; rw [h] at hd1; simp at hd1
    refine ⟨?_, hd1, ?_⟩
    · rw [write_rows_eq data hne, write_rows_eq _ hdne]
      have h1 : (data.drop LINE).take LINE = data.drop LINE :=
        List.take_of_length_le (by rw [hd1]; simp [LINE])
      have h2 : (data.drop LINE).drop LINE = [] :=
        List.drop_eq_nil_of_le (by rw [hd1]; simp [LINE])
      rw [h1, h2, write_rows_nil]
    · intro i h1i hiL
      have hnone : (data.drop LINE).get? i = none := by
        rw [List.get?_eq_none]
        omega
      unfold hex_slot
      rw [hnone]

/-- Witness for C6 on concrete 25- and 26-byte payloads. -/
theorem C6_row_wrapping_witness :
    (write_rows (List.replicate 25 65) = [write_data_line (List.replicate 25 65)] ∧
      ∀ i, i < LINE → hex_slot (List.replicate 25 65) i ≠ padSlot) ∧
    (write_rows (List.replicate 26 66) =
        [write_data_line ((List.replicate 26 66).take LINE),
          write_data_line ((List.replicate 26 66).drop LINE)] ∧
      ((List.replicate 26 66).drop LINE).length = 1 ∧
      ∀ i, 1 ≤ i → i < LINE → hex_slot ((List.replicate 26 66).drop LINE) i = padSlot) :=
  ⟨C6_row_wrapping.1 _ (by decide) (by decide), C6_row_wrapping.2 _ (by decide)⟩

/-- C7: the ASCII column renders exactly two characters per byte with
the fixed mapping — `\0` for 0, `\t` for 9, `\n` for 10, `\r` for 13, a
space followed by the literal character for 32..=126, `\?` for anything
else — and the column of a row is the concatenation of the entries with
no separator, spanning exactly twice the row's byte count. -/
theorem C7_ascii_column :
    (∀ b : Nat, (ascii_repr b).length = 2) ∧
    ascii_repr 0 = ['\\', '0'] ∧
    ascii_repr 9 = ['\\', 't'] ∧
    ascii_repr 10 = ['\\', 'n'] ∧
    ascii_repr 13 = ['\\', 'r'] ∧
    (∀ b : Nat, 32 ≤ b → b ≤ 126 → ascii_repr b = [' ', Char.ofNat b]) ∧
    (∀ b : Nat, b ≠ 0 → b ≠ 9 → b ≠ 10 → b ≠ 13 → ¬(32 ≤ b ∧ b ≤ 126) →
      ascii_repr b = ['\\', '?']) ∧
    (∀ row : List Nat, ((row.map ascii_repr).flatten).length = 2 * row.length) := by
  refine ⟨ascii_repr_length, by decide, by decide, by decide, by decide, ?_, ?_, ?_⟩
  · intro b h1 h2
    unfold ascii_repr
    rw [if_neg (by omega), if_neg (by omega), if_neg (by omega), if_neg (by omega),
      if_pos ⟨h1, h2⟩]
  · intro b h0 h9 h10 h13 hpr
    unfold ascii_repr
    rw [if_neg h0, if_neg h9, if_neg h10, if_neg h13, if_neg hpr]
  · intro row
    induction row with
    | nil => simp
    | cons b r ih =>
      simp only [List.map_cons, List.flatten_cons, List.length_append, ih,
        ascii_repr_length, List.length_cons]
      omega

/-- Witness for C7 at a printable byte and a non-printable byte. -/
theorem C7_ascii_column_witness :
    ascii_repr 65 = [' ', Char.ofNat 65] ∧ ascii_repr 200 = ['\\', '?'] :=
  ⟨C7_ascii_column.2.2.2.2.2.1 65 (by norm_num) (by norm_num),
    C7_ascii_column.2.2.2.2.2.2.1 200 (by norm_num) (by norm_num) (by norm_num)
      (by norm_num) (by omega)⟩

/-- C8 (amended): every line with no space-separated tokens (blank or
all-space lines) and every line whose first token is exactly `//` is
skipped by the Reader when it occurs before a header: the call behaves
exactly as if the line were absent. -/
theorem C8_amended_skip (l : Line) (rest : List Line)
    (h : tokensL l = [] ∨ (tokensL l).head? = some ['/', '/']) :
    read_packet (l :: rest) = read_packet rest := by
  rw [read_packet]
  by_cases he : tokensL l = []
  · rw [if_pos he]
  · rcases h with h | h
    · exact absurd h he
    · rw [if_neg he, if_pos h]

/-- Counterexample to C8 as stated: the line `//xyz` begins with `//`
but its first token is `//xyz`, so it is not skipped — the parse
attempt aborts with the assertion panic instead of behaving like the
empty input. -/
theorem C8_counterexample :
    read_packet [("//xyz").toList] =
      .panicked ("assertion failed: 4 == head.len()") ∧
    read_packet ([] : List Line) = .ok none [] ∧
    read_packet [("//xyz").toList] ≠ read_packet ([] : List Line) := by
  refine ⟨by decide, rfl, by decide⟩

/-- Witness for the amended C8 on a concrete comment line. -/
theorem C8_amended_skip_witness :
    read_packet [("// a comment").toList] = read_packet [] :=
  C8_amended_skip _ [] (by decide)

/-- C9: if end of input is reached while the Reader is inside a record's
body — here, after any prefix of the record's data rows and no blank
terminator — the record is completed and returned as a packet holding
the bytes decoded so far, not reported as an error. -/
theorem C9_truncated_record (dir : Direction) (em : Nat) (data : List Nat) (k : Nat)
    (hb : ∀ b ∈ data, b < 256) :
    ∃ em', read_packet (headerLine dir em data.length :: (write_rows data).take k) =
      .ok (some ⟨⟨dir, em'⟩, data.take (LINE * k)⟩) [] := by
  obtain ⟨v, hv⟩ := read_packet_headerLine dir em data.length ((write_rows data).take k)
  refine ⟨f64ToU64 (false, v), ?_⟩
  rw [hv, take_write_rows]
  have hsub : ∀ b ∈ data.take (LINE * k), b < 256 :=
    fun b hbm => hb b (List.take_subset _ _ hbm)
  have h0 := readBody_rows (data.take (LINE * k)).length (data.take (LINE * k))
    (Nat.le_refl _) hsub [] [] dir (f64ToU64 (false, v))
  simp only [List.append_nil, List.nil_append] at h0
  rw [h0]
  simp [readBody]

/-- Witness for C9: a 26-byte record truncated after its first row
yields a packet with the first 25 bytes. -/
theorem C9_truncated_record_witness :
    ∃ em', read_packet (headerLine Direction.Write 1 (List.replicate 26 66).length ::
        (write_rows (List.replicate 26 66)).take 1) =
      .ok (some ⟨⟨Direction.Write, em'⟩, (List.replicate 26 66).take (LINE * 1)⟩) [] :=
  C9_truncated_record Direction.Write 1 _ 1 (by decide)

end IoDump
